import Mathlib

/-!
Verification development for the argmin optimization-execution core.

The repository ships (under `src/implementors/core/marker/trait.Send.js`) the
rustdoc-generated table of `Send` implementations for the crate's types.  The
executor / state / termination / observer / checkpoint code itself is not part
of the source tree, so those components are modelled from the specification
(each such definition carries a doc comment starting `Modelled from the spec:`).
The `Send` table, which is genuine source, is embedded directly.
-/

namespace Argmin

/-! ## The Send-implementors table (from src/implementors/core/marker/trait.Send.js) -/

/-- A generic type parameter named in the source's `Send` table. -/
inductive TypeParam where
  | O : TypeParam
  | S : TypeParam
  | I : TypeParam
  | P : TypeParam
  | G : TypeParam
  | J : TypeParam
  | H : TypeParam
  | F : TypeParam
deriving DecidableEq, Repr

/-- A `Send` implementation entry as recorded by rustdoc: either an
unconditional `impl Send`, a negative `impl !Send`, or a conditional impl
`impl Send where P : Send` for each listed generic parameter `P`. -/
inductive SendImpl where
  | unconditional : SendImpl
  | negative : SendImpl
  | conditional : List TypeParam → SendImpl
deriving DecidableEq, Repr

/-- Whether a type with the given `Send` impl entry is `Send`, as a function of
an assignment of `Send`-ness to its generic parameters. -/
def SendImpl.isSend : SendImpl → (TypeParam → Bool) → Bool
  | .unconditional, _ => true
  | .negative, _ => false
  | .conditional ps, σ => ps.all σ

/-- From the source table: `impl Send for FileCheckpoint`. -/
def fileCheckpointSendImpl : SendImpl := .unconditional

/-- From the source table: `impl Send for CheckpointingFrequency`. -/
def checkpointingFrequencySendImpl : SendImpl := .unconditional

/-- From the source table: `impl Send for ArgminError`. -/
def argminErrorSendImpl : SendImpl := .unconditional

/-- From the source table: `impl<O, S, I> !Send for Executor<O, S, I>`. -/
def executorSendImpl : SendImpl := .negative

/-- From the source table: `impl<I> !Send for Observers<I>`. -/
def observersSendImpl : SendImpl := .negative

/-- From the source table: `impl<O> Send for Problem<O> where O: Send`. -/
def problemSendImpl : SendImpl := .conditional [.O]

/-- From the source table: `impl<O, S, I> Send for OptimizationResult<O, S, I>
where I: Send, O: Send, S: Send`. -/
def optimizationResultSendImpl : SendImpl := .conditional [.I, .O, .S]

/-- From the source table: `impl<P, G, J, H, F> Send for IterState<P, G, J, H, F>`
where all five parameters are `Send`. -/
def iterStateSendImpl : SendImpl := .conditional [.F, .G, .H, .J, .P]

/-- From the source table: `impl Send for TerminationStatus`. -/
def terminationStatusSendImpl : SendImpl := .unconditional

/-- From the source table: `impl Send for TerminationReason`. -/
def terminationReasonSendImpl : SendImpl := .unconditional

end Argmin

namespace Argmin

/-- C10: per the Send table, `Problem<O>` is `Send` exactly when `O` is `Send`;
`OptimizationResult<O, S, I>` is `Send` whenever `O`, `S` and `I` are `Send`;
and the `Executor` itself is never `Send` under any parameter assignment. -/
theorem problem_result_send_exactly (σ : TypeParam → Bool) :
    problemSendImpl.isSend σ = σ .O ∧
    (σ .O = true → σ .S = true → σ .I = true →
      optimizationResultSendImpl.isSend σ = true) ∧
    executorSendImpl.isSend σ = false := by
  refine ⟨?_, ?_, rfl⟩
  · simp [problemSendImpl, SendImpl.isSend]
  · intro hO hS hI
    simp [optimizationResultSendImpl, SendImpl.isSend, hO, hS, hI]

/-- Witness for C10 at the all-`Send` parameter assignment. -/
theorem problem_result_send_exactly_holds :
    problemSendImpl.isSend (fun _ => true) = true ∧
    optimizationResultSendImpl.isSend (fun _ => true) = true ∧
    executorSendImpl.isSend (fun _ => true) = false := by
  obtain ⟨h1, h2, h3⟩ := problem_result_send_exactly (fun _ => true)
  exact ⟨h1, h2 rfl rfl rfl, h3⟩

/-- C9 counterexample: the claim that an `Executor` can be transferred to and
run on another thread fails on the source: the table records
`impl<O, S, I> !Send for Executor<O, S, I>`, so even with every generic
parameter `Send` the `Executor` is not `Send`. -/
theorem executor_not_transferable :
    executorSendImpl.isSend (fun _ => true) = false := rfl

/-- C9 amended: multiple independent `Executor` instances may run concurrently
only if each is constructed on the thread that runs it: by the source table
neither `Executor<O, S, I>` nor the `Observers<I>` registry it owns is `Send`
under any parameter assignment, so an `Executor` cannot be transferred to
another thread. -/
theorem executor_never_send (σ : TypeParam → Bool) :
    executorSendImpl.isSend σ = false ∧ observersSendImpl.isSend σ = false :=
  ⟨rfl, rfl⟩

/-! ## The executor core, modelled from the specification

The executor / state / termination / observer code of the crate is not part of
the shipped sources, so it is reconstructed here from the specification.
Parameter points and cost values are modelled as `Int` (the spec treats them as
opaque ordered values); wall time as `Nat` ticks supplied per iteration. -/

/-- Modelled from the spec: `TerminationReason`, the open enumeration of
reasons a run may terminate (§3). -/
inductive TerminationReason where
  | MaxItersReached : TerminationReason
  | TargetCostReached : TerminationReason
  | TargetPrecisionReached : TerminationReason
  | NoImprovementStreak : Nat → TerminationReason
  | TimeBudgetExceeded : TerminationReason
  | Aborted : TerminationReason
  | SolverConverged : TerminationReason
deriving DecidableEq, Repr

/-- Modelled from the spec: `TerminationStatus`, a two-variant sum: not yet
terminated, or terminated with a reason (§3). -/
inductive TerminationStatus where
  | NotTerminated : TerminationStatus
  | Terminated : TerminationReason → TerminationStatus
deriving DecidableEq, Repr

/-- Whether a termination status is the terminal variant. -/
def TerminationStatus.isTerminated : TerminationStatus → Bool
  | .NotTerminated => false
  | .Terminated _ => true

/-- Modelled from the spec: the error taxonomy `ArgminError` (§7); the message
payloads carried by the source errors are irrelevant to the claims and
omitted. -/
inductive ArgminError where
  | NotImplemented : ArgminError
  | SolverError : ArgminError
  | ObserverError : ArgminError
  | CheckpointError : ArgminError
  | InvalidConfiguration : ArgminError
deriving DecidableEq, Repr

/-- Modelled from the spec: a user problem implementation exposing zero or more
of the four evaluation capabilities (§6); an absent capability is detectable. -/
structure UserProblem where
  costFn : Option (Int → Int)
  gradientFn : Option (Int → Int)
  jacobianFn : Option (Int → Int)
  hessianFn : Option (Int → Int)

/-- Modelled from the spec: `Problem`, the wrapper owning a user implementation
plus four monotonically increasing evaluation counters (§3, §4.1). -/
structure Problem where
  user : UserProblem
  costCount : Nat
  gradientCount : Nat
  jacobianCount : Nat
  hessianCount : Nat

/-- Wrap a user implementation with all evaluation counters at zero. -/
def Problem.new (u : UserProblem) : Problem := ⟨u, 0, 0, 0, 0⟩

/-- Modelled from the spec: `cost` increments its counter and delegates to the
user implementation; fails with `NotImplemented`, before any state mutation,
when the capability is absent (§4.1, §8). -/
def Problem.cost (p : Problem) (x : Int) : Except ArgminError (Int × Problem) :=
  match p.user.costFn with
  | none => .error .NotImplemented
  | some f => .ok (f x, { p with costCount := p.costCount + 1 })

/-- Modelled from the spec: `gradient`, as `cost` but for the gradient
capability (§4.1, §8). -/
def Problem.gradient (p : Problem) (x : Int) : Except ArgminError (Int × Problem) :=
  match p.user.gradientFn with
  | none => .error .NotImplemented
  | some f => .ok (f x, { p with gradientCount := p.gradientCount + 1 })

/-- Modelled from the spec: `jacobian`, as `cost` but for the Jacobian
capability (§4.1, §8). -/
def Problem.jacobian (p : Problem) (x : Int) : Except ArgminError (Int × Problem) :=
  match p.user.jacobianFn with
  | none => .error .NotImplemented
  | some f => .ok (f x, { p with jacobianCount := p.jacobianCount + 1 })

/-- Modelled from the spec: `hessian`, as `cost` but for the Hessian
capability (§4.1, §8). -/
def Problem.hessian (p : Problem) (x : Int) : Except ArgminError (Int × Problem) :=
  match p.user.hessianFn with
  | none => .error .NotImplemented
  | some f => .ok (f x, { p with hessianCount := p.hessianCount + 1 })

/-- Modelled from the spec: the point-state shape of `State` (§3): current
point and cost, best-known point and cost (unset before the first
best-tracking pass), iteration counter, consecutive-non-improving-iteration
counter, and termination status. -/
structure ModelState where
  param : Int
  cost : Int
  bestParam : Int
  bestCost : Option Int
  iter : Nat
  noImprovementCount : Nat
  termination : TerminationStatus
deriving DecidableEq, Repr

/-- The best-known cost of a state, defaulting to the current cost while the
best is still unset. -/
def bestCostD (s : ModelState) : Int := s.bestCost.getD s.cost

/-- Modelled from the spec: the per-run configuration consumed by the default
termination checks (§4.4); unset options disable the corresponding check. -/
structure Config where
  maxIters : Nat
  targetCost : Option Int
  timeBudget : Option Nat
  noImprovementThreshold : Option Nat
deriving DecidableEq, Repr

/-- Modelled from the spec: the per-iteration external inputs polled by the
termination checks — the cooperative abort flag and the elapsed wall time
(§4.4, §5). -/
structure IterInput where
  abort : Bool
  elapsed : Nat
deriving DecidableEq, Repr

/-- Modelled from the spec: the solver contract (§4.2): advance one iteration
(possibly failing with a fatal solver error) and optionally declare early
termination from the merged state. -/
structure Solver where
  next : Int → Int → Except ArgminError (Int × Int)
  terminateEarly : ModelState → Option TerminationReason

/-- Modelled from the spec: the best-tracking update (§4.3): replace best
point/cost and reset the no-improvement streak exactly when the new current
cost strictly improves on the best-known cost or the best is unset; otherwise
increment the streak. Returns the updated state and the new-best flag. -/
def updateBest (s : ModelState) : ModelState × Bool :=
  match s.bestCost with
  | none =>
      ({ s with bestParam := s.param, bestCost := some s.cost,
                noImprovementCount := 0 }, true)
  | some b =>
      if s.cost < b then
        ({ s with bestParam := s.param, bestCost := some s.cost,
                  noImprovementCount := 0 }, true)
      else
        ({ s with noImprovementCount := s.noImprovementCount + 1 }, false)

/-- Whether the configured time budget is exhausted this iteration. -/
def timeBudgetExceeded (cfg : Config) (inp : IterInput) : Bool :=
  match cfg.timeBudget with
  | none => false
  | some b => decide (b < inp.elapsed)

/-- Whether the iteration counter has reached the configured maximum. -/
def maxItersReached (cfg : Config) (s : ModelState) : Bool :=
  decide (cfg.maxIters ≤ s.iter)

/-- Whether the best-known cost has reached the configured target cost. -/
def targetCostReached (cfg : Config) (s : ModelState) : Bool :=
  match cfg.targetCost, s.bestCost with
  | some t, some b => decide (b ≤ t)
  | _, _ => false

/-- Whether the no-improvement streak has reached the configured threshold. -/
def noImprovementStreakReached (cfg : Config) (s : ModelState) : Bool :=
  match cfg.noImprovementThreshold with
  | none => false
  | some n => decide (n ≤ s.noImprovementCount)

/-- Modelled from the spec: the default termination checks, evaluated in fixed
order after best-tracking, first match wins; the solver's early-termination
reason comes last, and if nothing matches the status stays `NotTerminated`
(§4.4). -/
def checkTermination (cfg : Config) (inp : IterInput)
    (early : Option TerminationReason) (s : ModelState) : TerminationStatus :=
  if inp.abort then .Terminated .Aborted
  else if timeBudgetExceeded cfg inp then .Terminated .TimeBudgetExceeded
  else if maxItersReached cfg s then .Terminated .MaxItersReached
  else if targetCostReached cfg s then .Terminated .TargetCostReached
  else if noImprovementStreakReached cfg s then
    .Terminated (.NoImprovementStreak (cfg.noImprovementThreshold.getD 0))
  else
    match early with
    | some r => .Terminated r
    | none => .NotTerminated

/-- Modelled from the spec: `ObserverMode` — `Always | Never | Every(n) |
NewBest` (§3). -/
inductive ObserverMode where
  | Always : ObserverMode
  | Never : ObserverMode
  | Every : Nat → ObserverMode
  | NewBest : ObserverMode
deriving DecidableEq, Repr

/-- Modelled from the spec: whether an observer mode fires for a given
iteration index and new-best flag (§4.5, §8). -/
def ObserverMode.fires : ObserverMode → Nat → Bool → Bool
  | .Always, _, _ => true
  | .Never, _, _ => false
  | .Every n, i, _ => decide (i % n = 0)
  | .NewBest, _, newBest => newBest

/-- Modelled from the spec: `CheckpointingFrequency` — `Never | Always |
Every(n)` (§3). -/
inductive CheckpointingFrequency where
  | Never : CheckpointingFrequency
  | Always : CheckpointingFrequency
  | Every : Nat → CheckpointingFrequency
deriving DecidableEq, Repr

/-- Modelled from the spec: whether a checkpoint is persisted at a given
iteration index (§4.6, §8). -/
def CheckpointingFrequency.fires : CheckpointingFrequency → Nat → Bool
  | .Never, _ => false
  | .Always, _ => true
  | .Every n, i => decide (i % n = 0)

/-- Modelled from the spec: a registered observer — a trigger mode plus a sink
receiving the iteration index and best cost, which may fail (§4.5). -/
structure ObserverEntry where
  mode : ObserverMode
  sink : Nat → Int → Except ArgminError Unit

/-- Modelled from the spec: dispatch one iteration's record to every observer
whose mode fires, collecting failures and continuing with the remaining
observers in registration order (§4.5). -/
def notifyAll (obs : List ObserverEntry) (iter : Nat) (newBest : Bool)
    (best : Int) : List ArgminError :=
  obs.foldr
    (fun o acc =>
      if o.mode.fires iter newBest then
        match o.sink iter best with
        | .ok _ => acc
        | .error e => e :: acc
      else acc) []

/-- Modelled from the spec: one executor loop pass (§4.7): ask the solver for
the next iteration (a failure is fatal and propagated), merge — increment the
iteration counter and perform best-tracking — and evaluate termination on the
merged state. Returns the merged state and the new-best flag. -/
def execStep (cfg : Config) (solver : Solver) (inp : IterInput)
    (s : ModelState) : Except ArgminError (ModelState × Bool) :=
  match solver.next s.param s.cost with
  | .error e => .error e
  | .ok (p, c) =>
      let merged := updateBest { s with param := p, cost := c, iter := s.iter + 1 }
      .ok ({ merged.1 with
              termination :=
                checkTermination cfg inp (solver.terminateEarly merged.1)
                  merged.1 }, merged.2)

/-- Modelled from the spec: what a finished loop hands back (§4.7): the trace
of post-merge states, the final state, the collected (non-fatal) observer
failures, and the fatal solver error if one aborted the run. -/
structure RunResult where
  trace : List ModelState
  finalState : ModelState
  observerErrors : List ArgminError
  solverError : Option ArgminError
deriving Repr

/-- Modelled from the spec: the executor run loop (§4.7): while the status is
`NotTerminated`, advance the solver, merge, dispatch observers (their failures
are collected, never fatal), and stop on the iteration that produced a
terminal status or on a fatal solver error. One input is consumed per loop
pass. -/
def runLoop (cfg : Config) (solver : Solver) (obs : List ObserverEntry) :
    List IterInput → ModelState → RunResult
  | [], s => ⟨[], s, [], none⟩
  | inp :: rest, s =>
      if s.termination.isTerminated then ⟨[], s, [], none⟩
      else
        match execStep cfg solver inp s with
        | .error e => ⟨[], s, [], some e⟩
        | .ok (s', newBest) =>
            let errs := notifyAll obs s'.iter newBest (bestCostD s')
            let r := runLoop cfg solver obs rest s'
            ⟨s' :: r.trace, r.finalState, errs ++ r.observerErrors, r.solverError⟩

/-- Modelled from the spec: the state handed to `Solver.initialize` — status
starts `NotTerminated`, counters at zero, best unset (§3, §4.7). -/
def baseState (p0 c0 : Int) : ModelState :=
  ⟨p0, c0, p0, none, 0, 0, .NotTerminated⟩

/-- Modelled from the spec: the initialization pass (§4.7): iteration 0 is the
merged initialization result — best-tracking runs on it and termination is
evaluated — before the loop proper starts. -/
def initState (cfg : Config) (solver : Solver) (inp : IterInput)
    (p0 c0 : Int) : ModelState :=
  let merged := updateBest (baseState p0 c0)
  { merged.1 with
    termination :=
      checkTermination cfg inp (solver.terminateEarly merged.1) merged.1 }

/-- Modelled from the spec: the trace of states of a full run, iteration 0
(the initialization result) first (§4.7). -/
def runStates (cfg : Config) (solver : Solver) (obs : List ObserverEntry)
    (inp0 : IterInput) (inputs : List IterInput) (p0 c0 : Int) :
    List ModelState :=
  let s0 := initState cfg solver inp0 p0 c0
  s0 :: (runLoop cfg solver obs inputs s0).trace

/-! ## Helper lemmas about the modelled executor -/

/-- The new-best flag of the best-tracking update is raised exactly when the
best is unset or the current cost strictly improves on it. -/
theorem updateBest_snd_iff (s : ModelState) :
    (updateBest s).2 = true ↔
      s.bestCost = none ∨ ∃ b, s.bestCost = some b ∧ s.cost < b := by
  cases hb : s.bestCost with
  | none => simp [updateBest, hb]
  | some b =>
    by_cases hlt : s.cost < b
    · simp [updateBest, hb, hlt]
    · simp [updateBest, hb, hlt]

/-- A successful executor pass bumps the iteration counter by exactly one. -/
theorem execStep_ok_iter {cfg : Config} {solver : Solver} {inp : IterInput}
    {s s' : ModelState} {nb : Bool}
    (h : execStep cfg solver inp s = .ok (s', nb)) : s'.iter = s.iter + 1 := by
  unfold execStep at h
  cases hnext : solver.next s.param s.cost with
  | error e => rw [hnext] at h; exact absurd h (by simp)
  | ok pc =>
    obtain ⟨p, c⟩ := pc
    rw [hnext] at h
    simp only [Except.ok.injEq, Prod.mk.injEq] at h
    obtain ⟨hs, _⟩ := h
    subst hs
    cases hb : ({ s with param := p, cost := c, iter := s.iter + 1 } :
        ModelState).bestCost with
    | none => simp [updateBest, hb]
    | some b =>
      by_cases hlt : ({ s with param := p, cost := c, iter := s.iter + 1 } :
          ModelState).cost < b
      · simp [updateBest, hb, hlt]
      · simp [updateBest, hb, hlt]

/-- A successful executor pass keeps the best-known cost set, never increases
it, and leaves it at or below the new current cost. -/
theorem execStep_ok_best {cfg : Config} {solver : Solver} {inp : IterInput}
    {s s' : ModelState} {nb : Bool}
    (h : execStep cfg solver inp s = .ok (s', nb))
    (hb : s.bestCost.isSome = true) :
    s'.bestCost.isSome = true ∧ bestCostD s' ≤ bestCostD s ∧
      bestCostD s' ≤ s'.cost := by
  obtain ⟨b, hbv⟩ := Option.isSome_iff_exists.mp hb
  unfold execStep at h
  cases hnext : solver.next s.param s.cost with
  | error e => rw [hnext] at h; exact absurd h (by simp)
  | ok pc =>
    obtain ⟨p, c⟩ := pc
    rw [hnext] at h
    simp only [Except.ok.injEq, Prod.mk.injEq] at h
    obtain ⟨hs, _⟩ := h
    subst hs
    by_cases hlt : c < b
    · simp [updateBest, hbv, hlt, bestCostD]
      omega
    · simp [updateBest, hbv, hlt, bestCostD]
      omega

/-- Along any loop suffix started from a state with the best set, the
best-known cost stays set, never increases between consecutive trace states,
and stays at or below the current cost. -/
theorem runLoop_best (cfg : Config) (solver : Solver) (obs : List ObserverEntry)
    (inputs : List IterInput) :
    ∀ s : ModelState, s.bestCost.isSome = true →
      List.Chain' (fun a b => bestCostD b ≤ bestCostD a)
        (s :: (runLoop cfg solver obs inputs s).trace) ∧
      ∀ t ∈ (runLoop cfg solver obs inputs s).trace,
        t.bestCost.isSome = true ∧ bestCostD t ≤ t.cost := by
  induction inputs with
  | nil => intro s _; simp [runLoop]
  | cons inp rest ih =>
    intro s hb
    rw [runLoop]
    cases ht : s.termination.isTerminated with
    | true => simp [ht]
    | false =>
      cases hstep : execStep cfg solver inp s with
      | error e => simp [ht, hstep]
      | ok pr =>
        obtain ⟨s', nb⟩ := pr
        obtain ⟨h1, h2, h3⟩ := execStep_ok_best hstep hb
        obtain ⟨ih1, ih2⟩ := ih s' h1
        simp only [ht, hstep, Bool.false_eq_true, if_false]
        refine ⟨List.chain'_cons.mpr ⟨h2, ih1⟩, ?_⟩
        intro t htm
        rcases List.mem_cons.mp htm with rfl | htm
        · exact ⟨h1, h3⟩
        · exact ih2 t htm

/-- Every trace state of a loop suffix except possibly the last one is
`NotTerminated`: the loop never advances past a terminal status. -/
theorem runLoop_chain_notTerm (cfg : Config) (solver : Solver)
    (obs : List ObserverEntry) (inputs : List IterInput) :
    ∀ s : ModelState,
      List.Chain' (fun a _ => a.termination.isTerminated = false)
        (s :: (runLoop cfg solver obs inputs s).trace) := by
  induction inputs with
  | nil => intro s; simp [runLoop]
  | cons inp rest ih =>
    intro s
    rw [runLoop]
    cases ht : s.termination.isTerminated with
    | true => simp [ht]
    | false =>
      cases hstep : execStep cfg solver inp s with
      | error e => simp [ht, hstep]
      | ok pr =>
        obtain ⟨s', nb⟩ := pr
        simp only [ht, hstep, Bool.false_eq_true, if_false]
        exact List.chain'_cons.mpr ⟨ht, ih s'⟩

/-- The loop performs no solver advance from a terminated state: it returns at
once, with the state untouched and nothing recorded. -/
theorem runLoop_terminated (cfg : Config) (solver : Solver)
    (obs : List ObserverEntry) (inputs : List IterInput) (s : ModelState)
    (ht : s.termination.isTerminated = true) :
    runLoop cfg solver obs inputs s = ⟨[], s, [], none⟩ := by
  cases inputs with
  | nil => rfl
  | cons inp rest => rw [runLoop]; simp [ht]

/-- Iteration counters only move forward along a loop suffix. -/
theorem runLoop_iter_mono (cfg : Config) (solver : Solver)
    (obs : List ObserverEntry) (inputs : List IterInput) :
    ∀ s : ModelState, ∀ t ∈ (runLoop cfg solver obs inputs s).trace,
      s.iter ≤ t.iter := by
  induction inputs with
  | nil => intro s t htm; simp [runLoop] at htm
  | cons inp rest ih =>
    intro s t htm
    rw [runLoop] at htm
    cases ht : s.termination.isTerminated with
    | true => simp [ht] at htm
    | false =>
      cases hstep : execStep cfg solver inp s with
      | error e => simp [ht, hstep] at htm
      | ok pr =>
        obtain ⟨s', nb⟩ := pr
        simp only [ht, hstep, Bool.false_eq_true, if_false,
          List.mem_cons] at htm
        have hit : s'.iter = s.iter + 1 := execStep_ok_iter hstep
        rcases htm with rfl | htm
        · omega
        · have := ih s' t htm
          omega

/-- Sound prefixes compose: a loop over `xs ++ ys` reaches the same final state
and fatal-error outcome as running `xs`, then resuming `ys` from the state the
prefix ended in, provided the prefix ran without a solver error. -/
theorem runLoop_append (cfg : Config) (solver : Solver)
    (obs : List ObserverEntry) (xs : List IterInput) :
    ∀ (ys : List IterInput) (s : ModelState),
      (runLoop cfg solver obs xs s).solverError = none →
      (runLoop cfg solver obs (xs ++ ys) s).finalState =
        (runLoop cfg solver obs ys
          (runLoop cfg solver obs xs s).finalState).finalState ∧
      (runLoop cfg solver obs (xs ++ ys) s).solverError =
        (runLoop cfg solver obs ys
          (runLoop cfg solver obs xs s).finalState).solverError := by
  induction xs with
  | nil => intro ys s _; simp [runLoop]
  | cons inp rest ih =>
    intro ys s hpre
    rw [runLoop] at hpre ⊢
    rw [List.cons_append, runLoop]
    cases ht : s.termination.isTerminated with
    | true =>
      simp only [ht, if_true]
      rw [runLoop_terminated cfg solver obs ys s ht]
      exact ⟨rfl, rfl⟩
    | false =>
      cases hstep : execStep cfg solver inp s with
      | error e =>
        simp only [ht, hstep, Bool.false_eq_true, if_false] at hpre
        exact absurd hpre (by simp)
      | ok pr =>
        obtain ⟨s', nb⟩ := pr
        simp only [ht, hstep, Bool.false_eq_true, if_false] at hpre ⊢
        exact ih ys s' hpre

/-- Observers never feed back into the run: the trace, final state and fatal
error of a loop are those of the same loop with no observers registered. -/
theorem runLoop_obs_independent (cfg : Config) (solver : Solver)
    (obs : List ObserverEntry) (inputs : List IterInput) :
    ∀ s : ModelState,
      (runLoop cfg solver obs inputs s).trace =
        (runLoop cfg solver [] inputs s).trace ∧
      (runLoop cfg solver obs inputs s).finalState =
        (runLoop cfg solver [] inputs s).finalState ∧
      (runLoop cfg solver obs inputs s).solverError =
        (runLoop cfg solver [] inputs s).solverError := by
  induction inputs with
  | nil => intro s; simp [runLoop]
  | cons inp rest ih =>
    intro s
    rw [runLoop, runLoop]
    cases ht : s.termination.isTerminated with
    | true => simp [ht]
    | false =>
      cases hstep : execStep cfg solver inp s with
      | error e => simp [ht, hstep]
      | ok pr =>
        obtain ⟨s', nb⟩ := pr
        obtain ⟨ih1, ih2, ih3⟩ := ih s'
        simp only [ht, hstep, Bool.false_eq_true, if_false]
        refine ⟨?_, ih2, ih3⟩
        simp [notifyAll, ih1]

/-- Observer dispatch visits every registered observer in order, skips the
ones whose mode does not fire, and collects the failures of the ones that do —
a failing observer never stops the remaining ones from being invoked. -/
theorem notifyAll_eq (obs : List ObserverEntry) (i : Nat) (nb : Bool)
    (best : Int) :
    notifyAll obs i nb best =
      (obs.filter fun o => o.mode.fires i nb).filterMap
        (fun o => match o.sink i best with
          | .ok _ => none
          | .error e => some e) := by
  induction obs with
  | nil => rfl
  | cons o os ih =>
    simp only [notifyAll, List.foldr_cons] at *
    by_cases hf : o.mode.fires i nb
    · cases hs : o.sink i best with
      | ok u => simp [hf, hs, ih]
      | error e => simp [hf, hs, ih]
    · simp [hf, ih]

/-- A deterministic solver decreasing the cost by one each iteration, used by
the concrete witnesses. -/
def decSolver : Solver := ⟨fun p c => .ok (p, c - 1), fun _ => none⟩

/-- A solver whose advance always fails fatally, used by the concrete
witnesses. -/
def failSolver : Solver := ⟨fun _ _ => .error .SolverError, fun _ => none⟩

/-- A quiet per-iteration input: no abort, no elapsed time. -/
def quietInput : IterInput := ⟨false, 0⟩

end Argmin

namespace Argmin

/-- C1: on every run, along the whole trace (iteration 0 onward) the
best-known cost is set, is monotonically non-increasing from each iteration to
the next, and is at or below the current cost of the same iteration. -/
theorem best_cost_monotone (cfg : Config) (solver : Solver)
    (obs : List ObserverEntry) (inp0 : IterInput) (inputs : List IterInput)
    (p0 c0 : Int) :
    List.Chain' (fun a b => bestCostD b ≤ bestCostD a)
      (runStates cfg solver obs inp0 inputs p0 c0) ∧
    ∀ t ∈ runStates cfg solver obs inp0 inputs p0 c0,
      t.bestCost.isSome = true ∧ bestCostD t ≤ t.cost := by
  have hrs : runStates cfg solver obs inp0 inputs p0 c0 =
      initState cfg solver inp0 p0 c0 ::
        (runLoop cfg solver obs inputs (initState cfg solver inp0 p0 c0)).trace :=
    rfl
  have hs0 : (initState cfg solver inp0 p0 c0).bestCost = some c0 := rfl
  have hsome : (initState cfg solver inp0 p0 c0).bestCost.isSome = true := by
    rw [hs0]; rfl
  obtain ⟨h1, h2⟩ := runLoop_best cfg solver obs inputs _ hsome
  rw [hrs]
  refine ⟨h1, ?_⟩
  intro t htm
  rcases List.mem_cons.mp htm with rfl | htm
  · refine ⟨hsome, ?_⟩
    rw [bestCostD, hs0]
    exact le_of_eq rfl
  · exact h2 t htm

/-- Witness for C1: in the concrete two-iteration run of the decreasing solver
from cost 5 under a two-iteration budget, the iteration-1 state has its best
cost set and at or below its current cost. -/
theorem best_cost_monotone_holds :
    (ModelState.mk 0 4 0 (some 4) 1 0 .NotTerminated).bestCost.isSome = true ∧
    bestCostD (ModelState.mk 0 4 0 (some 4) 1 0 .NotTerminated) ≤
      (ModelState.mk 0 4 0 (some 4) 1 0 .NotTerminated).cost :=
  (best_cost_monotone ⟨2, none, none, none⟩ decSolver [] quietInput
      [quietInput, quietInput] 0 5).2
    (ModelState.mk 0 4 0 (some 4) 1 0 .NotTerminated) (by decide)

/-- C2: the state a run starts from has status `NotTerminated`; in every run
trace, any state whose status is terminal is the last recorded one — the
status is set at most once, stays immutable, and the executor observes it on
the iteration that produced it; and the loop performs no solver advance at all
from a terminated state. -/
theorem termination_transitions_once (cfg : Config) (solver : Solver)
    (obs : List ObserverEntry) (inp0 : IterInput) (inputs : List IterInput)
    (p0 c0 : Int) :
    (baseState p0 c0).termination = .NotTerminated ∧
    (∀ i (h : i < (runStates cfg solver obs inp0 inputs p0 c0).length),
      ((runStates cfg solver obs inp0 inputs p0 c0).get
          ⟨i, h⟩).termination.isTerminated = true →
      i + 1 = (runStates cfg solver obs inp0 inputs p0 c0).length) ∧
    (∀ s : ModelState, s.termination.isTerminated = true →
      runLoop cfg solver obs inputs s = ⟨[], s, [], none⟩) := by
  have hrs : runStates cfg solver obs inp0 inputs p0 c0 =
      initState cfg solver inp0 p0 c0 ::
        (runLoop cfg solver obs inputs (initState cfg solver inp0 p0 c0)).trace :=
    rfl
  refine ⟨rfl, ?_, fun s hts => runLoop_terminated cfg solver obs inputs s hts⟩
  intro i h hterm
  have hch := runLoop_chain_notTerm cfg solver obs inputs
    (initState cfg solver inp0 p0 c0)
  rw [← hrs] at hch
  by_contra hne
  have hlt : i < (runStates cfg solver obs inp0 inputs p0 c0).length - 1 := by
    omega
  have hfalse :
      ((runStates cfg solver obs inp0 inputs p0 c0).get
        ⟨i, h⟩).termination.isTerminated = false :=
    List.chain'_iff_get.mp hch i hlt
  exact absurd (hterm.symm.trans hfalse) (by decide)

/-- Witness for C2: the concrete run with a one-iteration budget terminates at
trace index 1, the last recorded state of its two-state trace. -/
theorem termination_transitions_once_holds :
    1 + 1 = (runStates ⟨1, none, none, none⟩ decSolver [] quietInput
      [quietInput, quietInput] 0 5).length :=
  (termination_transitions_once ⟨1, none, none, none⟩ decSolver [] quietInput
      [quietInput, quietInput] 0 5).2.1 1 (by decide) (by decide)

/-- C3: the default termination checks run in fixed order after best-tracking —
abort, time budget, max iterations, target cost, no-improvement streak, then
the solver's early-termination reason — the first matching check fixes the
reason, and when none match the status stays `NotTerminated`. -/
theorem termination_check_order (cfg : Config) (inp : IterInput)
    (early : Option TerminationReason) (s : ModelState) :
    (inp.abort = true →
      checkTermination cfg inp early s = .Terminated .Aborted) ∧
    (inp.abort = false → timeBudgetExceeded cfg inp = true →
      checkTermination cfg inp early s = .Terminated .TimeBudgetExceeded) ∧
    (inp.abort = false → timeBudgetExceeded cfg inp = false →
      maxItersReached cfg s = true →
      checkTermination cfg inp early s = .Terminated .MaxItersReached) ∧
    (inp.abort = false → timeBudgetExceeded cfg inp = false →
      maxItersReached cfg s = false → targetCostReached cfg s = true →
      checkTermination cfg inp early s = .Terminated .TargetCostReached) ∧
    (∀ n, inp.abort = false → timeBudgetExceeded cfg inp = false →
      maxItersReached cfg s = false → targetCostReached cfg s = false →
      cfg.noImprovementThreshold = some n → n ≤ s.noImprovementCount →
      checkTermination cfg inp early s =
        .Terminated (.NoImprovementStreak n)) ∧
    (∀ r, inp.abort = false → timeBudgetExceeded cfg inp = false →
      maxItersReached cfg s = false → targetCostReached cfg s = false →
      noImprovementStreakReached cfg s = false → early = some r →
      checkTermination cfg inp early s = .Terminated r) ∧
    (inp.abort = false → timeBudgetExceeded cfg inp = false →
      maxItersReached cfg s = false → targetCostReached cfg s = false →
      noImprovementStreakReached cfg s = false → early = none →
      checkTermination cfg inp early s = .NotTerminated) := by
  refine ⟨?_, ?_, ?_, ?_, ?_, ?_, ?_⟩
  · intro h1; simp [checkTermination, h1]
  · intro h1 h2; simp [checkTermination, h1, h2]
  · intro h1 h2 h3; simp [checkTermination, h1, h2, h3]
  · intro h1 h2 h3 h4; simp [checkTermination, h1, h2, h3, h4]
  · intro n h1 h2 h3 h4 h5 h6
    have h7 : noImprovementStreakReached cfg s = true := by
      simp [noImprovementStreakReached, h5, h6]
    simp [checkTermination, h1, h2, h3, h4, h7, h5]
  · intro r h1 h2 h3 h4 h5 h6
    simp [checkTermination, h1, h2, h3, h4, h5, h6]
  · intro h1 h2 h3 h4 h5 h6
    simp [checkTermination, h1, h2, h3, h4, h5, h6]

/-- Witness for C3: with the abort flag raised the check terminates with
`Aborted` no matter what the other conditions say. -/
theorem termination_check_order_aborts :
    checkTermination ⟨0, some 0, some 0, some 0⟩ ⟨true, 5⟩
      (some .SolverConverged) (baseState 0 0) = .Terminated .Aborted :=
  (termination_check_order ⟨0, some 0, some 0, some 0⟩ ⟨true, 5⟩
    (some .SolverConverged) (baseState 0 0)).1 rfl

/-- C4: the best-tracking merge replaces best point/cost exactly when the new
current cost strictly improves the best-known cost or the best is unset; the
no-improvement streak resets to 0 exactly then and is incremented otherwise;
and a current cost exactly equal to the best never updates the best. -/
theorem best_tracking_strict (s : ModelState) :
    ((updateBest s).2 = true ↔
      s.bestCost = none ∨ ∃ b, s.bestCost = some b ∧ s.cost < b) ∧
    ((updateBest s).2 = true →
      (updateBest s).1.bestCost = some s.cost ∧
      (updateBest s).1.bestParam = s.param ∧
      (updateBest s).1.noImprovementCount = 0) ∧
    ((updateBest s).2 = false →
      (updateBest s).1.bestCost = s.bestCost ∧
      (updateBest s).1.bestParam = s.bestParam ∧
      (updateBest s).1.noImprovementCount = s.noImprovementCount + 1) ∧
    (∀ b, s.bestCost = some b → s.cost = b → (updateBest s).2 = false) := by
  refine ⟨updateBest_snd_iff s, ?_, ?_, ?_⟩
  · intro hf
    cases hb : s.bestCost with
    | none => simp [updateBest, hb]
    | some b =>
      by_cases hlt : s.cost < b
      · simp [updateBest, hb, hlt]
      · rw [updateBest_snd_iff] at hf
        simp [hb, hlt] at hf
  · intro hf
    cases hb : s.bestCost with
    | none => simp [updateBest, hb] at hf
    | some b =>
      by_cases hlt : s.cost < b
      · simp [updateBest, hb, hlt] at hf
      · simp [updateBest, hb, hlt]
  · intro b hb hbe
    simp [updateBest, hb, hbe]

/-- Witness for C4: the very first best-tracking pass (best unset) records a
new best. -/
theorem best_tracking_strict_first :
    (updateBest (baseState 0 5)).2 = true :=
  (best_tracking_strict (baseState 0 5)).1.mpr (Or.inl rfl)

/-- C5: `Every(n)` fires exactly on iterations `i` with `i mod n = 0`;
`NewBest` fires exactly on iterations whose best-tracking pass strictly
improved the best-known cost; `Never` never fires; `Always` always fires —
both for observer modes and for checkpointing frequencies. -/
theorem observer_checkpoint_modes (i n : Nat) (nb : Bool) (s : ModelState) :
    (ObserverMode.fires (.Every n) i nb = true ↔ i % n = 0) ∧
    (ObserverMode.fires .NewBest i nb = nb) ∧
    (ObserverMode.fires .Never i nb = false) ∧
    (ObserverMode.fires .Always i nb = true) ∧
    (ObserverMode.fires .NewBest i (updateBest s).2 = true ↔
      s.bestCost = none ∨ ∃ b, s.bestCost = some b ∧ s.cost < b) ∧
    (CheckpointingFrequency.fires (.Every n) i = true ↔ i % n = 0) ∧
    (CheckpointingFrequency.fires .Never i = false) ∧
    (CheckpointingFrequency.fires .Always i = true) := by
  refine ⟨?_, rfl, rfl, rfl, updateBest_snd_iff s, ?_, rfl, rfl⟩
  · simp [ObserverMode.fires]
  · simp [CheckpointingFrequency.fires]

/-- Witness for C5: `Every(3)` fires at iteration 6 and the first
best-tracking pass makes `NewBest` fire. -/
theorem observer_checkpoint_modes_holds :
    ObserverMode.fires (.Every 3) 6 false = true ∧
    ObserverMode.fires .NewBest 6 (updateBest (baseState 0 5)).2 = true :=
  ⟨(observer_checkpoint_modes 6 3 false (baseState 0 5)).1.mpr (by decide),
   (observer_checkpoint_modes 6 3 false (baseState 0 5)).2.2.2.2.1.mpr
     (Or.inl rfl)⟩

/-- C6: each `Problem` operation delegates to the user implementation and
bumps exactly its own counter when the capability is present, and fails with
`NotImplemented` — returning no mutated wrapper, so before any state
mutation — when the capability is absent. -/
theorem problem_capability_dispatch (p : Problem) (x : Int) :
    (p.user.costFn = none → p.cost x = .error .NotImplemented) ∧
    (∀ f, p.user.costFn = some f →
      p.cost x = .ok (f x, { p with costCount := p.costCount + 1 })) ∧
    (p.user.gradientFn = none → p.gradient x = .error .NotImplemented) ∧
    (∀ f, p.user.gradientFn = some f →
      p.gradient x = .ok (f x, { p with gradientCount := p.gradientCount + 1 })) ∧
    (p.user.jacobianFn = none → p.jacobian x = .error .NotImplemented) ∧
    (∀ f, p.user.jacobianFn = some f →
      p.jacobian x = .ok (f x, { p with jacobianCount := p.jacobianCount + 1 })) ∧
    (p.user.hessianFn = none → p.hessian x = .error .NotImplemented) ∧
    (∀ f, p.user.hessianFn = some f →
      p.hessian x = .ok (f x, { p with hessianCount := p.hessianCount + 1 })) := by
  refine ⟨?_, ?_, ?_, ?_, ?_, ?_, ?_, ?_⟩
  · intro h; simp [Problem.cost, h]
  · intro f h; simp [Problem.cost, h]
  · intro h; simp [Problem.gradient, h]
  · intro f h; simp [Problem.gradient, h]
  · intro h; simp [Problem.jacobian, h]
  · intro f h; simp [Problem.jacobian, h]
  · intro h; simp [Problem.hessian, h]
  · intro f h; simp [Problem.hessian, h]

/-- A cost-only user implementation (no gradient, Jacobian or Hessian). -/
def costOnly : UserProblem := ⟨some (fun v => v * v), none, none, none⟩

/-- Witness for C6: on a cost-only problem, `gradient` fails with
`NotImplemented` leaving every counter untouched, while `cost` evaluates and
bumps exactly the cost counter. -/
theorem problem_capability_dispatch_holds :
    (Problem.new costOnly).gradient 3 = .error .NotImplemented ∧
    (Problem.new costOnly).cost 3 =
      .ok (9, { Problem.new costOnly with costCount := 1 }) :=
  ⟨(problem_capability_dispatch (Problem.new costOnly) 3).2.2.1 rfl,
   (problem_capability_dispatch (Problem.new costOnly) 3).2.1
     (fun v => v * v) rfl⟩

/-- C7: for a deterministic solver, running the loop from the state a
checkpoint captured after a sound prefix of inputs and continuing to the end
yields the same final best cost, the same termination status, and the same
final iteration count as the uninterrupted run over all inputs; and the
resumed trace re-enters at the checkpoint's iteration count, never below it. -/
theorem checkpoint_resume_equivalence (cfg : Config) (solver : Solver)
    (obs : List ObserverEntry) (inp0 : IterInput) (xs ys : List IterInput)
    (p0 c0 : Int)
    (h : (runLoop cfg solver obs xs
      (initState cfg solver inp0 p0 c0)).solverError = none) :
    (runLoop cfg solver obs ys
        (runLoop cfg solver obs xs
          (initState cfg solver inp0 p0 c0)).finalState).finalState.bestCost =
      (runLoop cfg solver obs (xs ++ ys)
        (initState cfg solver inp0 p0 c0)).finalState.bestCost ∧
    (runLoop cfg solver obs ys
        (runLoop cfg solver obs xs
          (initState cfg solver inp0 p0 c0)).finalState).finalState.termination =
      (runLoop cfg solver obs (xs ++ ys)
        (initState cfg solver inp0 p0 c0)).finalState.termination ∧
    (runLoop cfg solver obs ys
        (runLoop cfg solver obs xs
          (initState cfg solver inp0 p0 c0)).finalState).finalState.iter =
      (runLoop cfg solver obs (xs ++ ys)
        (initState cfg solver inp0 p0 c0)).finalState.iter ∧
    ∀ t ∈ (runLoop cfg solver obs ys
        (runLoop cfg solver obs xs
          (initState cfg solver inp0 p0 c0)).finalState).trace,
      (runLoop cfg solver obs xs
        (initState cfg solver inp0 p0 c0)).finalState.iter ≤ t.iter := by
  obtain ⟨hfin, _⟩ := runLoop_append cfg solver obs xs ys _ h
  exact ⟨by rw [hfin], by rw [hfin], by rw [hfin],
    runLoop_iter_mono cfg solver obs ys _⟩

/-- Witness for C7: a run of the decreasing solver split after one input
resumes to the same final best cost as the uninterrupted four-input run. -/
theorem checkpoint_resume_equivalence_holds :
    (runLoop ⟨3, none, none, none⟩ decSolver []
        [quietInput, quietInput, quietInput]
        (runLoop ⟨3, none, none, none⟩ decSolver [] [quietInput]
          (initState ⟨3, none, none, none⟩ decSolver quietInput 0 10)).finalState).finalState.bestCost =
      (runLoop ⟨3, none, none, none⟩ decSolver []
        ([quietInput] ++ [quietInput, quietInput, quietInput])
        (initState ⟨3, none, none, none⟩ decSolver quietInput 0 10)).finalState.bestCost :=
  (checkpoint_resume_equivalence ⟨3, none, none, none⟩ decSolver [] quietInput
    [quietInput] [quietInput, quietInput, quietInput] 0 10 (by decide)).1

/-- C8: observer sinks never feed back into the run — the trace, final state
and fatal-error outcome are those of the observer-free loop, and the dispatch
collects the failures of every fired observer while continuing with the
remaining ones — whereas a failure of the solver's advance is fatal: the loop
stops at once with no new state and records the error in the result. -/
theorem observer_nonfatal_solver_fatal :
    (∀ (cfg : Config) (solver : Solver) (obs : List ObserverEntry)
        (inputs : List IterInput) (s : ModelState),
      (runLoop cfg solver obs inputs s).trace =
        (runLoop cfg solver [] inputs s).trace ∧
      (runLoop cfg solver obs inputs s).finalState =
        (runLoop cfg solver [] inputs s).finalState ∧
      (runLoop cfg solver obs inputs s).solverError =
        (runLoop cfg solver [] inputs s).solverError) ∧
    (∀ (obs : List ObserverEntry) (i : Nat) (nb : Bool) (best : Int),
      notifyAll obs i nb best =
        (obs.filter fun o => o.mode.fires i nb).filterMap
          (fun o => match o.sink i best with
            | .ok _ => none
            | .error e => some e)) ∧
    (∀ (cfg : Config) (solver : Solver) (obs : List ObserverEntry)
        (inp : IterInput) (rest : List IterInput) (s : ModelState)
        (e : ArgminError),
      s.termination.isTerminated = false →
      solver.next s.param s.cost = .error e →
      runLoop cfg solver obs (inp :: rest) s = ⟨[], s, [], some e⟩) := by
  refine ⟨fun cfg solver obs inputs s =>
      runLoop_obs_independent cfg solver obs inputs s,
    fun obs i nb best => notifyAll_eq obs i nb best,
    ?_⟩
  intro cfg solver obs inp rest s e ht hnext
  rw [runLoop]
  simp only [ht, Bool.false_eq_true, if_false]
  simp [execStep, hnext]

/-- Witness for C8: a failing advance aborts the run at once, recording the
solver error in the result with no further state. -/
theorem observer_nonfatal_solver_fatal_holds :
    runLoop ⟨10, none, none, none⟩ failSolver [] [quietInput]
      (baseState 0 0) = ⟨[], baseState 0 0, [], some .SolverError⟩ :=
  observer_nonfatal_solver_fatal.2.2 ⟨10, none, none, none⟩ failSolver []
    quietInput [] (baseState 0 0) .SolverError rfl rfl

end Argmin
